import Mathlib

/-!
Verification of the command-resolution and flag-binding engine of
`coreos/updatectl` (`cmd.go`), as a shallow embedding in Lean.

The embedding covers:
* the tri-state boolean flag adapter `BoolFlag.Set` (cmd.go lines 49-82),
  with the nil-pointer write in the falsy branch made explicit;
* the command tree (`Command`, cmd.go lines 84-92), where the per-node
  `flag.FlagSet` is abstracted to its observable behaviour: a parse
  function from the remaining arguments to either a parse failure or the
  positional arguments left over, plus the mutable post-parse state;
* the resolver `findCommand` (cmd.go lines 189-218), with the in-place
  flag-set mutation turned into explicit state passing (the updated tree
  and a trace of the addresses whose flag sets were parsed), and the
  `os.Exit(ERROR_USAGE)` inside the loop turned into an `Except.error`;
* `main` (cmd.go lines 220-257) together with `handle`
  (cmd.go lines 154-169), producing the sequence of observable events
  (prints, resolver invocation, client construction, handler run) and the
  process exit code.
-/

/-! ## Exit codes (cmd.go lines 17-22, iota) -/

def OK : Int := 0

def ERROR_API : Int := 1

def ERROR_USAGE : Int := 2

def ERROR_NO_COMMAND : Int := 3

/-! ## Tri-state boolean flag adapter (cmd.go lines 49-82)

The Go receiver state is `value *bool`, modelled as `Option Bool`
(`none` = nil pointer, i.e. never set).  `Set` is modelled as a function
from the state and the input string to a `SetOutcome`: either a runtime
panic (the Go code writes `*f.value = false` through a possibly-nil
pointer), or a normal return carrying the error value (`none` = nil
error) and the new state. -/

def falseVals : List String := ["0", "f", "false", "FALSE", "False"]

def truthVals : List String := ["1", "t", "true", "TRUE", "True"]

/-- Message of the error built by `fmt.Errorf` in `BoolFlag.Set`
(cmd.go line 68), with Go's `%v` rendering of the two slices. -/
def boolFlagErrMsg : String :=
  "value must be one of [1 t true TRUE True], [0 f false FALSE False]"

/-- Outcome of one call to `BoolFlag.Set`. -/
inductive SetOutcome where
  | panics
  | returns (err : Option String) (value : Option Bool)
deriving DecidableEq

/-- The first loop of `BoolFlag.Set` (cmd.go lines 56-60): for each falsy
literal equal to the input it executes `*f.value = false`, which
dereferences the possibly-nil pointer — `none` in the result means the
loop panicked. -/
def runFalseLoop (st : Option Bool) (v : String) : Option (Option Bool) :=
  falseVals.foldl
    (fun acc val =>
      match acc with
      | none => none
      | some s =>
        if val = v then
          match s with
          | none => none
          | some _ => some (some false)
        else some s)
    (some st)

/-- The second loop of `BoolFlag.Set` (cmd.go lines 61-66): for each
truthy literal equal to the input it allocates a fresh cell
(`f.value = new(bool)`) and stores `true`, so it never panics. -/
def runTruthLoop (st : Option Bool) (v : String) : Option Bool :=
  truthVals.foldl (fun s val => if val = v then some true else s) st

/-- Embedding of `BoolFlag.Set` (cmd.go lines 53-71): run the falsy loop
(which may panic on a nil `value`), then the truthy loop, then return an
error exactly when `value` is still nil. -/
def boolFlagSet (st : Option Bool) (v : String) : SetOutcome :=
  match runFalseLoop st v with
  | none => .panics
  | some st1 =>
    let st2 := runTruthLoop st1 v
    if st2 = none then .returns (some boolFlagErrMsg) st2
    else .returns none st2

/-! ## Command tree (cmd.go lines 84-92)

A `Cmd` carries its `Name`, the behaviour of its owned `flag.FlagSet`
(`parseRes rest = none` models `Flags.Parse(rest)` returning a non-nil
error; `parseRes rest = some l` models a successful parse after which
`Flags.Args()` is `l`), the mutable post-parse state of that flag set
(`parsed = some l` once the set has been parsed, mirroring the `args`
field of Go's `flag.FlagSet`), the optional handler `Run` (given the
positional arguments, returning the exit code; the service client and
output writer are external collaborators and are elided from the handler
signature), and the `Subcommands`. -/

inductive Cmd : Type where
  | mk (name : String) (parseRes : List String → Option (List String))
       (parsed : Option (List String)) (run : Option (List String → Int))
       (subs : List Cmd) : Cmd

def Cmd.name : Cmd → String
  | .mk n _ _ _ _ => n

def Cmd.parseRes : Cmd → List String → Option (List String)
  | .mk _ p _ _ _ => p

def Cmd.parsed : Cmd → Option (List String)
  | .mk _ _ p _ _ => p

def Cmd.run : Cmd → Option (List String → Int)
  | .mk _ _ _ r _ => r

def Cmd.subs : Cmd → List Cmd
  | .mk _ _ _ _ s => s

/-- The node after `Flags.Parse` succeeded leaving positional arguments
`a`: only the flag-set state changes. -/
def Cmd.withParsed : Cmd → List String → Cmd
  | .mk n pf _ r s, a => .mk n pf (some a) r s

/-- The node after `Flags.Parse` succeeded leaving positional arguments
`a` and after its subcommand list was (possibly) mutated in place by a
recursive resolution step. -/
def Cmd.withParsedSubs : Cmd → List String → List Cmd → Cmd
  | .mk n pf _ r _, a, s => .mk n pf (some a) r s

/-- `Flags.Args()` as read by `handle` (cmd.go line 166): the positional
arguments recorded by the last parse, empty if the set was never
parsed. -/
def Cmd.flagArgs (c : Cmd) : List String := c.parsed.getD []

/-! ## Resolver (cmd.go lines 189-218) -/

/-- The usage-error exit performed inside `findCommand` (cmd.go lines
203-204): `printCommandUsage(cmd)` for the node whose flags failed to
parse, then `os.Exit(ERROR_USAGE)`. -/
structure UsageExit where
  cmd : Cmd
  code : Int

/-- Result of `findCommand`: the returned `cmd` and `name` (cmd.go line
189), together with the explicitly passed state: the updated candidate
list `cmds` (flag-set mutations made visible) and the `trace` of
addresses (index paths into the original candidate list) of the nodes
whose flag sets were parsed during resolution. -/
structure FindRes where
  cmd : Option Cmd
  name : String
  cmds : List Cmd
  trace : List (List Nat)

/-- The search key built at cmd.go lines 193-197: the bare token when the
accumulated path is empty, otherwise `fmt.Sprintf("%s %s", search,
args[0])`. -/
def keyOf (search a0 : String) : String :=
  if search = "" then a0 else search ++ " " ++ a0

/-- Reindexing of a trace address when one candidate is prepended to the
scanned list. -/
def bump : List Nat → List Nat
  | [] => []
  | j :: p => (j + 1) :: p

mutual

/-- Embedding of `findCommand` (cmd.go lines 189-218).  With no
arguments it returns the zero values `(nil, "")` and touches nothing;
otherwise it builds the search key and scans the candidates. -/
def findCommand (search : String) (args : List String) (cmds : List Cmd) :
    Except UsageExit FindRes :=
  match args with
  | [] => .ok ⟨none, "", cmds, []⟩
  | a0 :: rest => scanCmds (keyOf search a0) rest cmds
termination_by (sizeOf cmds, 1)

/-- The candidate loop of `findCommand` (cmd.go lines 199-216): the first
candidate whose `Name` equals the accumulated search key is selected
(`break` afterwards); its flag set is parsed against the remaining
arguments (failure prints that node's usage and exits `ERROR_USAGE`);
if it has subcommands the resolver recurses on `Flags.Args()`, and a
non-nil deeper result wins. -/
def scanCmds (key : String) (rest : List String) (cmds : List Cmd) :
    Except UsageExit FindRes :=
  match cmds with
  | [] => .ok ⟨none, key, [], []⟩
  | c :: cs =>
    if c.name = key then
      match c.parseRes rest with
      | none => .error ⟨c, ERROR_USAGE⟩
      | some subArgs =>
        if c.subs.isEmpty then
          .ok ⟨some (c.withParsed subArgs), key, c.withParsed subArgs :: cs, [[0]]⟩
        else
          match findCommand key subArgs c.subs with
          | .error e => .error e
          | .ok r =>
            .ok ⟨(match r.cmd with
                  | some sc => some sc
                  | none => some (c.withParsedSubs subArgs r.cmds)), r.name,
                 c.withParsedSubs subArgs r.cmds :: cs,
                 [0] :: r.trace.map (fun p => 0 :: p)⟩
    else
      match scanCmds key rest cs with
      | .error e => .error e
      | .ok r => .ok ⟨r.cmd, r.name, c :: r.cmds, r.trace.map bump⟩
termination_by (sizeOf cmds, 0)
decreasing_by
  all_goals first
    | (cases c with
       | mk n pf pd run subs => simp [Cmd.subs]; omega)
    | (simp; omega)

end

/-! ## Addressing nodes of a candidate tree -/

/-- Flag-set state of the node at an index path into a candidate list
(outer `none`: no node at that address). -/
def flagStateAt (cmds : List Cmd) (addr : List Nat) :
    Option (Option (List String)) :=
  match cmds, addr with
  | _, [] => none
  | [], _ :: _ => none
  | c :: _, 0 :: [] => some c.parsed
  | c :: _, 0 :: p :: ps => flagStateAt c.subs (p :: ps)
  | _ :: cs, (j + 1) :: p => flagStateAt cs (j :: p)
termination_by (addr.length, addr.headD 0)
decreasing_by
  all_goals simp
  all_goals first
    | exact Prod.Lex.left _ _ (by omega)
    | exact Prod.Lex.right _ (by omega)

/-- Node at an index path into a candidate list. -/
def cmdAt (cmds : List Cmd) (addr : List Nat) : Option Cmd :=
  match cmds, addr with
  | _, [] => none
  | [], _ :: _ => none
  | c :: _, 0 :: [] => some c
  | c :: _, 0 :: p :: ps => cmdAt c.subs (p :: ps)
  | _ :: cs, (j + 1) :: p => cmdAt cs (j :: p)
termination_by (addr.length, addr.headD 0)
decreasing_by
  all_goals simp
  all_goals first
    | exact Prod.Lex.left _ _ (by omega)
    | exact Prod.Lex.right _ (by omega)

/-- Address `p` lies on the path from the root to address `q` (it is an
initial segment of `q`). -/
def isUnder (p q : List Nat) : Prop := q.take p.length = p

/-- Frame property of one resolver call on candidate list `cmds`
producing `r`: nodes outside the parse trace keep their flag-set state,
the whole trace lies on the path to the returned node, and a resolution
returning no node parsed nothing. -/
def FrameProp (cmds : List Cmd) (r : FindRes) : Prop :=
  (∀ addr, addr ∉ r.trace → flagStateAt r.cmds addr = flagStateAt cmds addr) ∧
  (∀ c, r.cmd = some c → ∃ q, q ∈ r.trace ∧ (∀ p ∈ r.trace, isUnder p q) ∧
    cmdAt r.cmds q = some c) ∧
  (r.cmd = none → r.trace = [])

/-! ## Dispatch runner (`main`, cmd.go lines 220-257, and `handle`,
cmd.go lines 154-169)

The global flag set is parsed by the standard library before `main`'s
own logic runs, so `mainGo` takes the resulting `GlobalFlags` record and
the remaining arguments as inputs.  The observable behaviour is the list
of emitted events plus the process exit code. -/

structure GlobalFlags where
  server : String
  user : String
  key : String
  debug : Bool
  version : Bool
  help : Bool

inductive Event where
  | printVersion
  | printGlobalUsage
  | printCmdUsage (name : String)
  | printUnknown (name : String)
  | printHelpHint
  | resolve
  | buildClient
  | runHandler (name : String)
deriving DecidableEq

/-- Embedding of `main` (cmd.go lines 220-257).  `--version` and
`--help` short-circuit before anything else; an empty argument list is
replaced by `["help"]`; then the resolver runs (a usage exit inside the
resolver prints that node's usage and exits `ERROR_USAGE`); no resolved
node prints the unknown-subcommand diagnostic plus the help hint and
exits `ERROR_NO_COMMAND`; a node without a handler prints its usage and
exits `ERROR_USAGE`; otherwise `handle` builds the client and runs the
handler on `Flags.Args()`, the handler's return value is the exit code,
and usage is additionally printed when that value is `ERROR_USAGE`. -/
def mainGo (g : GlobalFlags) (argsIn : List String) (cmds : List Cmd) :
    List Event × Int :=
  if g.version then ([.printVersion], OK)
  else if g.help then ([.printGlobalUsage], OK)
  else
    let args := if argsIn.length < 1 then argsIn ++ ["help"] else argsIn
    match findCommand "" args cmds with
    | .error e => ([.resolve, .printCmdUsage e.cmd.name], e.code)
    | .ok r =>
      match r.cmd with
      | none => ([.resolve, .printUnknown r.name, .printHelpHint], ERROR_NO_COMMAND)
      | some c =>
        match c.run with
        | none => ([.resolve, .printCmdUsage c.name], ERROR_USAGE)
        | some f =>
          ([.resolve, .buildClient, .runHandler c.name] ++
             (if f c.flagArgs = ERROR_USAGE then [.printCmdUsage c.name] else []),
           f c.flagArgs)

/-! ## Specification of the returned full name

`resolvedNameSpec` states, following the structure of the code, what the
`name` component of a successful resolution is: the empty string when the
argument list is exhausted (at the top or below a matched node with
children); the accumulated key including the current token when that
token matches no candidate (so the first failing token is part of the
name) or when it matches a node without subcommands. -/

mutual

def resolvedNameSpec (search : String) (args : List String) (cmds : List Cmd) :
    String :=
  match args with
  | [] => ""
  | a0 :: rest => scanNameSpec (keyOf search a0) rest cmds
termination_by (sizeOf cmds, 1)

def scanNameSpec (key : String) (rest : List String) (cmds : List Cmd) :
    String :=
  match cmds with
  | [] => key
  | c :: cs =>
    if c.name = key then
      match c.parseRes rest with
      | none => key
      | some subArgs =>
        if c.subs.isEmpty then key else resolvedNameSpec key subArgs c.subs
    else scanNameSpec key rest cs
termination_by (sizeOf cmds, 0)
decreasing_by
  all_goals first
    | (cases c with
       | mk n pf pd run subs => simp [Cmd.subs]; omega)
    | (simp; omega)

end

/-! ## Helper lemmas -/

theorem runFalseLoop_of_not_mem (st : Option Bool) (v : String)
    (h : v ∉ falseVals) : runFalseLoop st v = some st := by
  simp only [falseVals, List.mem_cons, List.not_mem_nil, or_false, not_or] at h
  obtain ⟨h1, h2, h3, h4, h5⟩ := h
  simp [runFalseLoop, falseVals, Ne.symm h1, Ne.symm h2, Ne.symm h3,
    Ne.symm h4, Ne.symm h5]

theorem runTruthLoop_of_not_mem (st : Option Bool) (v : String)
    (h : v ∉ truthVals) : runTruthLoop st v = st := by
  simp only [truthVals, List.mem_cons, List.not_mem_nil, or_false, not_or] at h
  obtain ⟨h1, h2, h3, h4, h5⟩ := h
  simp [runTruthLoop, truthVals, Ne.symm h1, Ne.symm h2, Ne.symm h3,
    Ne.symm h4, Ne.symm h5]

theorem scanCmds_of_no_match (key : String) (rest : List String) :
    ∀ cmds : List Cmd, (∀ c ∈ cmds, c.name ≠ key) →
      scanCmds key rest cmds = .ok ⟨none, key, cmds, []⟩ := by
  intro cmds
  induction cmds with
  | nil => intro h; simp [scanCmds]
  | cons c cs ih =>
    intro h
    have hc : c.name ≠ key := h c (by simp)
    have ih' := ih (fun x hx => h x (by simp [hx]))
    simp [scanCmds, hc, ih']

theorem scanCmds_of_find_parse_fail (key : String) (rest : List String) :
    ∀ (cmds : List Cmd) (c : Cmd),
      cmds.find? (fun x => x.name == key) = some c →
      c.parseRes rest = none →
      scanCmds key rest cmds = .error ⟨c, ERROR_USAGE⟩ := by
  intro cmds
  induction cmds with
  | nil => intro c hf _; simp [List.find?] at hf
  | cons a cs ih =>
    intro c hf hp
    by_cases ha : a.name = key
    · have hac : a = c := by simpa [List.find?, ha] using hf
      cases hac
      simp [scanCmds, ha, hp]
    · have hb : (a.name == key) = false := by simp [ha]
      have hf' : cs.find? (fun x => x.name == key) = some c := by
        simpa [List.find?, hb] using hf
      have := ih c hf' hp
      simp [scanCmds, ha, this]

/-! ## Claims about the boolean flag adapter -/

/-- C2 (code bug): on an adapter whose value was never set, `Set` with
any of the falsy literals `"false"`, `"f"`, `"0"`, `"False"`, `"FALSE"`
dereferences the nil `value` pointer (`*f.value = false`, cmd.go line
58) and panics instead of storing `false`; with a previously set value
the same inputs do store `false`. -/
theorem C2_falsy_on_unset_panics :
    boolFlagSet none "false" = .panics ∧ boolFlagSet none "f" = .panics ∧
    boolFlagSet none "0" = .panics ∧ boolFlagSet none "False" = .panics ∧
    boolFlagSet none "FALSE" = .panics ∧
    boolFlagSet (some true) "false" = .returns none (some false) := by decide

/-- C5 (counterexample): on an adapter holding a previously set value,
`Set` with the unrecognised input `"yes"` returns with a nil error (the
`f.value == nil` check at cmd.go line 67 fails), leaving the old value;
the claim instead demands a format error in every state. -/
theorem C5_counterexample :
    boolFlagSet (some true) "yes" = .returns none (some true) ∧
    SetOutcome.returns (none : Option String) (some true) ≠
      SetOutcome.returns (some boolFlagErrMsg) (some true) := by decide

/-- C5 (amended): `Set` with an input in neither literal list always
leaves the stored value unchanged (never defaulting it to false), but it
returns the format error only when the value was still unset; after a
successful earlier `Set` it returns a nil error. -/
theorem C5_unknown_input_error_iff_unset (st : Option Bool) (v : String)
    (hf : v ∉ falseVals) (ht : v ∉ truthVals) :
    boolFlagSet st v =
      .returns (if st = none then some boolFlagErrMsg else none) st := by
  have h1 := runFalseLoop_of_not_mem st v hf
  have h2 := runTruthLoop_of_not_mem st v ht
  cases st <;> simp [boolFlagSet, h1, h2]

theorem C5_witness :
    boolFlagSet none "yes" = .returns (some boolFlagErrMsg) none := by
  have h := C5_unknown_input_error_iff_unset none "yes" (by decide) (by decide)
  simpa using h

/-! ## Claims about the resolver -/

/-- C3 (counterexample): called with a non-empty accumulated path and no
arguments, the resolver returns the zero-value name `""`, not the
accumulated path `"app"` demanded by the claim. -/
theorem C3_counterexample :
    (findCommand "app" ([] : List String) ([] : List Cmd)).map FindRes.name =
      .ok "" ∧ "" ≠ "app" := by
  constructor
  · simp [findCommand, Except.map]
  · decide

/-- C3 (amended): with an empty argument list the resolver returns no
node and the empty string — the named return `name` still holds its zero
value, `pathSoFar` is not returned — and the candidate list is left
untouched. -/
theorem C3_empty_args_returns_empty_name (search : String) (cmds : List Cmd) :
    findCommand search [] cmds = .ok ⟨none, "", cmds, []⟩ := by
  simp [findCommand]

/-- C8: when the first token matches no top-level command name, the
resolver returns no node with `name` equal to that first token, and
`main` prints the unknown-subcommand diagnostic plus the help hint and
exits with `ERROR_NO_COMMAND`. -/
theorem C8_unknown_first_token (g : GlobalFlags) (a0 : String)
    (rest : List String) (cmds : List Cmd)
    (hv : g.version = false) (hh : g.help = false)
    (h : ∀ c ∈ cmds, c.name ≠ a0) :
    findCommand "" (a0 :: rest) cmds = .ok ⟨none, a0, cmds, []⟩ ∧
    mainGo g (a0 :: rest) cmds =
      ([.resolve, .printUnknown a0, .printHelpHint], ERROR_NO_COMMAND) := by
  have hkey : keyOf "" a0 = a0 := by simp [keyOf]
  have hscan := scanCmds_of_no_match a0 rest cmds h
  have hfind : findCommand "" (a0 :: rest) cmds = .ok ⟨none, a0, cmds, []⟩ := by
    simp only [findCommand, hkey]
    exact hscan
  refine ⟨hfind, ?_⟩
  simp [mainGo, hv, hh, hfind]

theorem C8_witness :
    findCommand "" ["bogus"] [Cmd.mk "app" (fun a => some a) none none []] =
      .ok ⟨none, "bogus", [Cmd.mk "app" (fun a => some a) none none []], []⟩ ∧
    mainGo ⟨"s", "u", "k", false, false, false⟩ ["bogus"]
        [Cmd.mk "app" (fun a => some a) none none []] =
      ([.resolve, .printUnknown "bogus", .printHelpHint], ERROR_NO_COMMAND) := by
  exact C8_unknown_first_token ⟨"s", "u", "k", false, false, false⟩ "bogus" []
    [Cmd.mk "app" (fun a => some a) none none []] rfl rfl
    (by intro c hc; simp at hc; subst hc; simp [Cmd.name])

/-- C6: when the flag set of the first candidate matching the
accumulated key fails to parse the remaining arguments, the resolver
exits immediately with `ERROR_USAGE` carrying exactly that node (whose
usage block is printed), and at the top level the process accordingly
prints that node's usage — not the parent's or the global one — and
exits `ERROR_USAGE` without the handler or client ever running. -/
theorem C6_parse_failure_prints_that_usage (search a0 : String)
    (rest : List String) (cmds : List Cmd) (c : Cmd) (g : GlobalFlags)
    (hf : cmds.find? (fun x => x.name == keyOf search a0) = some c)
    (hp : c.parseRes rest = none) :
    findCommand search (a0 :: rest) cmds = .error ⟨c, ERROR_USAGE⟩ ∧
    (search = "" → g.version = false → g.help = false →
      mainGo g (a0 :: rest) cmds =
        ([.resolve, .printCmdUsage c.name], ERROR_USAGE)) := by
  have hfind : findCommand search (a0 :: rest) cmds = .error ⟨c, ERROR_USAGE⟩ := by
    simp only [findCommand]
    exact scanCmds_of_find_parse_fail _ rest cmds c hf hp
  refine ⟨hfind, fun hs hv hh => ?_⟩
  subst hs
  simp [mainGo, hv, hh, hfind]

theorem C6_witness :
    mainGo ⟨"s", "u", "k", false, false, false⟩ ["x"]
        [Cmd.mk "x" (fun a => none) none none []] =
      ([.resolve, .printCmdUsage "x"], ERROR_USAGE) := by
  have hf : [Cmd.mk "x" (fun a => none) none none []].find?
      (fun x => x.name == keyOf "" "x") =
      some (Cmd.mk "x" (fun a => none) none none []) := by
    simp [List.find?, keyOf, Cmd.name]
  have h := C6_parse_failure_prints_that_usage "" "x" [] _ _
    ⟨"s", "u", "k", false, false, false⟩ hf rfl
  simpa [Cmd.name] using h.2 rfl rfl rfl

/-- C7: for a resolved node with a handler, the handler's return value
is the process exit code unchanged, and the runner prints that node's
usage block exactly when the returned code is the reserved
`ERROR_USAGE`. -/
theorem C7_handler_return_is_exit_code (g : GlobalFlags) (a0 : String)
    (rest : List String) (cmds : List Cmd) (r : FindRes) (c : Cmd)
    (f : List String → Int)
    (hv : g.version = false) (hh : g.help = false)
    (hfind : findCommand "" (a0 :: rest) cmds = .ok r)
    (hc : r.cmd = some c) (hrun : c.run = some f) :
    (mainGo g (a0 :: rest) cmds).2 = f c.flagArgs ∧
    (mainGo g (a0 :: rest) cmds).1 =
      [.resolve, .buildClient, .runHandler c.name] ++
        (if f c.flagArgs = ERROR_USAGE then [.printCmdUsage c.name] else []) := by
  constructor <;> simp [mainGo, hv, hh, hfind, hc, hrun]

theorem C7_witness :
    (mainGo ⟨"s", "u", "k", false, false, false⟩ ["x"]
        [Cmd.mk "x" (fun a => some a) none (some (fun _ => (7 : Int))) []]).2 =
      7 ∧
    (mainGo ⟨"s", "u", "k", false, false, false⟩ ["x"]
        [Cmd.mk "x" (fun a => some a) none (some (fun _ => (7 : Int))) []]).1 =
      [.resolve, .buildClient, .runHandler "x"] := by
  have hfind : findCommand "" ["x"]
      [Cmd.mk "x" (fun a => some a) none (some (fun _ => (7 : Int))) []] =
      .ok ⟨some (Cmd.mk "x" (fun a => some a) (some [])
              (some (fun _ => (7 : Int))) []), "x",
           [Cmd.mk "x" (fun a => some a) (some [])
              (some (fun _ => (7 : Int))) []], [[0]]⟩ := by
    simp [findCommand, scanCmds, keyOf, Cmd.name, Cmd.parseRes, Cmd.subs,
      Cmd.withParsed]
  have h := C7_handler_return_is_exit_code ⟨"s", "u", "k", false, false, false⟩
    "x" [] _ _ _ (fun _ => (7 : Int)) rfl rfl hfind rfl rfl
  refine ⟨by simpa using h.1, ?_⟩
  rw [h.2]
  simp [Cmd.flagArgs, Cmd.parsed, Cmd.name, ERROR_USAGE]

/-- C9: with the global version or help flag set, `main` prints only the
version line (or the global usage) and exits `OK`; the resolver is never
invoked and the API client is never constructed. -/
theorem C9_version_help_short_circuit (g : GlobalFlags) (args : List String)
    (cmds : List Cmd) (h : g.version = true ∨ g.help = true) :
    (mainGo g args cmds).2 = OK ∧
    Event.resolve ∉ (mainGo g args cmds).1 ∧
    Event.buildClient ∉ (mainGo g args cmds).1 ∧
    (g.version = true → (mainGo g args cmds).1 = [Event.printVersion]) ∧
    (g.version = false → (mainGo g args cmds).1 = [Event.printGlobalUsage]) := by
  rcases h with h | h
  · simp [mainGo, h]
  · by_cases hv : g.version = true
    · simp [mainGo, hv]
    · have hv' : g.version = false := by simpa using hv
      simp [mainGo, hv', h]

theorem C9_witness :
    (mainGo ⟨"s", "u", "k", false, true, false⟩ ["app", "list"] []).2 = OK ∧
    Event.resolve ∉ (mainGo ⟨"s", "u", "k", false, true, false⟩ ["app", "list"] []).1 ∧
    Event.buildClient ∉ (mainGo ⟨"s", "u", "k", false, true, false⟩ ["app", "list"] []).1 := by
  have h := C9_version_help_short_circuit ⟨"s", "u", "k", false, true, false⟩
    ["app", "list"] [] (Or.inl rfl)
  exact ⟨h.1, h.2.1, h.2.2.1⟩

theorem scanCmds_engages_iff (key : String) (rest : List String) :
    ∀ cmds : List Cmd,
      ((∃ r, scanCmds key rest cmds = .ok r ∧ r.cmd ≠ none) ∨
       (∃ e, scanCmds key rest cmds = .error e)) ↔
        ∃ c ∈ cmds, c.name = key := by
  intro cmds
  induction cmds with
  | nil => simp [scanCmds]
  | cons c cs ih =>
    by_cases hc : c.name = key
    · constructor
      · intro _
        exact ⟨c, by simp, hc⟩
      · intro _
        rcases hp : c.parseRes rest with _ | subArgs
        · exact Or.inr ⟨⟨c, ERROR_USAGE⟩, by simp [scanCmds, hc, hp]⟩
        · cases hs : c.subs.isEmpty
          · rcases hrec : findCommand key subArgs c.subs with e | r0
            · exact Or.inr ⟨e, by simp [scanCmds, hc, hp, hs, hrec]⟩
            · refine Or.inl ⟨⟨(match r0.cmd with
                  | some sc => some sc
                  | none => some (c.withParsedSubs subArgs r0.cmds)), r0.name,
                  c.withParsedSubs subArgs r0.cmds :: cs,
                  [0] :: r0.trace.map (fun p => 0 :: p)⟩, ?_, ?_⟩
              · simp [scanCmds, hc, hp, hs, hrec]
              · cases hr0 : r0.cmd <;> simp [hr0]
          · refine Or.inl ⟨⟨some (c.withParsed subArgs), key,
              c.withParsed subArgs :: cs, [[0]]⟩, ?_, ?_⟩
            · simp [scanCmds, hc, hp, hs]
            · simp
    · have hscan0 : ∀ r0, scanCmds key rest cs = .ok r0 →
          scanCmds key rest (c :: cs) =
            .ok ⟨r0.cmd, r0.name, c :: r0.cmds, r0.trace.map bump⟩ := by
        intro r0 h0
        simp [scanCmds, hc, h0]
      constructor
      · intro h
        rcases hrec : scanCmds key rest cs with e | r0
        · rcases ih.mp (Or.inr ⟨e, hrec⟩) with ⟨c', hm, hn⟩
          exact ⟨c', by simp [hm], hn⟩
        · have hscan := hscan0 r0 hrec
          rcases h with ⟨r, hr, hcmd⟩ | ⟨e, he⟩
          · rw [hscan] at hr
            injection hr with hr
            subst hr
            rcases ih.mp (Or.inl ⟨r0, hrec, hcmd⟩) with ⟨c', hm, hn⟩
            exact ⟨c', by simp [hm], hn⟩
          · rw [hscan] at he
            exact absurd he (by simp)
      · rintro ⟨c', hm, hn⟩
        rcases List.mem_cons.mp hm with rfl | hm'
        · exact absurd hn hc
        · rcases ih.mpr ⟨c', hm', hn⟩ with ⟨r0, hr0, hcmd⟩ | ⟨e, he⟩
          · exact Or.inl ⟨_, hscan0 r0 hr0, hcmd⟩
          · exact Or.inr ⟨e, by simp [scanCmds, hc, he]⟩

/-- C1 (counterexample): at a nested level (`pathSoFar = "app"`), a
candidate named exactly the bare token `"list"` does not match, while a
candidate named the accumulated dotted name `"app list"` does — the
opposite of the claim's match key. -/
theorem C1_counterexample :
    (findCommand "app" ["list"]
        [Cmd.mk "list" (fun a => some a) none none []]).map
        (fun r => r.cmd.isSome) = .ok false ∧
    (findCommand "app" ["list"]
        [Cmd.mk "app list" (fun a => some a) none none []]).map
        (fun r => r.cmd.isSome) = .ok true := by
  constructor <;>
    simp [findCommand, scanCmds, keyOf, Cmd.name, Cmd.parseRes, Cmd.subs,
      Cmd.withParsed, Except.map]

/-- C1 (amended): at every recursion level a candidate is engaged (the
resolution returns a node or exits on its flag parse) exactly when its
name equals the accumulated dotted full name `keyOf pathSoFar args[0]`;
this coincides with the bare token only when `pathSoFar` is empty. -/
theorem C1_match_key_is_accumulated (search a0 : String) (rest : List String)
    (cmds : List Cmd) :
    ((∃ r, findCommand search (a0 :: rest) cmds = .ok r ∧ r.cmd ≠ none) ∨
     (∃ e, findCommand search (a0 :: rest) cmds = .error e)) ↔
      ∃ c ∈ cmds, c.name = keyOf search a0 := by
  have h := scanCmds_engages_iff (keyOf search a0) rest cmds
  simpa [findCommand] using h

/-- C4 (counterexample): after matching the single token `"app"` on a
node that has subcommands, the resolver recurses on an empty argument
list and the recursion's zero-value name `""` overwrites the joined
name, so the returned full name omits the matched token; conversely a
token matching nothing is included in the returned name. -/
theorem scanCmds_head_match_subs (key : String) (rest : List String)
    (c : Cmd) (cs : List Cmd) (subArgs : List String) (r0 : FindRes)
    (hc : c.name = key) (hp : c.parseRes rest = some subArgs)
    (hs : c.subs.isEmpty = false)
    (hrec : findCommand key subArgs c.subs = .ok r0) (hr0 : r0.cmd = none) :
    scanCmds key rest (c :: cs) =
      .ok ⟨some (c.withParsedSubs subArgs r0.cmds), r0.name,
           c.withParsedSubs subArgs r0.cmds :: cs,
           [0] :: r0.trace.map (fun p => 0 :: p)⟩ := by
  simp [scanCmds, hc, hp, hs, hrec, hr0]

theorem C4_counterexample :
    (findCommand "" ["app"]
        [Cmd.mk "app" (fun a => some a) none none
           [Cmd.mk "app list" (fun a => some a) none none []]]).map
        FindRes.name = .ok "" ∧ "" ≠ "app" ∧
    (findCommand "" ["bogus"] ([] : List Cmd)).map FindRes.name =
      .ok "bogus" ∧ "bogus" ≠ "" := by
  refine ⟨?_, by decide, ?_, by decide⟩
  · have hin : findCommand "app" ([] : List String)
        [Cmd.mk "app list" (fun a => some a) none none []] =
        .ok ⟨none, "", [Cmd.mk "app list" (fun a => some a) none none []], []⟩ := by
      simp [findCommand]
    have hout := scanCmds_head_match_subs "app" []
      (Cmd.mk "app" (fun a => some a) none none
        [Cmd.mk "app list" (fun a => some a) none none []]) [] []
      ⟨none, "", [Cmd.mk "app list" (fun a => some a) none none []], []⟩
      rfl rfl rfl hin rfl
    have hkey : keyOf "" "app" = "app" := by simp [keyOf]
    simp only [findCommand]
    rw [hkey, hout]
    simp only [Except.map]
  · simp [findCommand, scanCmds, keyOf, Except.map]

/-- C4 (amended): the full name returned by a successful resolution is
exactly `resolvedNameSpec`: the accumulated key — the joined matched
tokens, extended by the current token when it matches no candidate or
matches a node without subcommands — except that it is the empty string
whenever the walk stops because the argument list ran out (at the top,
or below a matched node with subcommands). -/
theorem C4_resolved_name_follows_code (search : String) (args : List String)
    (cmds : List Cmd) (r : FindRes)
    (h : findCommand search args cmds = .ok r) :
    r.name = resolvedNameSpec search args cmds := by
  have main : ∀ (search : String) (args : List String) (cmds : List Cmd),
      ∀ r, findCommand search args cmds = .ok r →
        r.name = resolvedNameSpec search args cmds := by
    refine findCommand.induct
      (fun search args cmds => ∀ r, findCommand search args cmds = .ok r →
        r.name = resolvedNameSpec search args cmds)
      (fun key rest cmds => ∀ r, scanCmds key rest cmds = .ok r →
        r.name = scanNameSpec key rest cmds)
      ?_ ?_ ?_ ?_ ?_ ?_ ?_ ?_ ?_
    · intro search cmds r h
      simp only [findCommand] at h
      injection h with h
      subst h
      simp [resolvedNameSpec]
    · intro search cmds a0 rest ih r h
      simp only [findCommand] at h
      simp only [resolvedNameSpec]
      exact ih r h
    · intro key rest r h
      simp only [scanCmds] at h
      injection h with h
      subst h
      simp [scanNameSpec]
    · intro rest c cs hp r h
      simp [scanCmds, hp] at h
    · intro rest c cs subArgs hp hs r h
      simp only [scanCmds, if_pos rfl, hp, hs, if_true] at h
      injection h with h
      subst h
      simp [scanNameSpec, hp, hs]
    · intro rest c cs subArgs hp hs e hrec ih r h
      simp [scanCmds, hp, hs, hrec] at h
    · intro rest c cs subArgs hp hs r0 hrec ih r h
      simp only [scanCmds, if_pos rfl, hp, hs, if_false] at h
      rw [hrec] at h
      injection h with h
      subst h
      simp only [scanNameSpec, if_pos rfl, hp, hs, if_false]
      exact ih r0 hrec
    · intro key rest c cs hc e herr ih r h
      simp [scanCmds, hc, herr] at h
    · intro key rest c cs hc r0 hok ih r h
      simp only [scanCmds, if_neg hc] at h
      rw [hok] at h
      injection h with h
      subst h
      simp only [scanNameSpec, if_neg hc]
      exact ih r0 hok
  exact main search args cmds r h

theorem C4_witness :
    (findCommand "" ["x"] ([] : List Cmd)).map FindRes.name =
      .ok (resolvedNameSpec "" ["x"] []) := by
  have hfind : findCommand "" ["x"] ([] : List Cmd) =
      .ok ⟨none, keyOf "" "x", [], []⟩ := by
    simp [findCommand, scanCmds]
  have h := C4_resolved_name_follows_code "" ["x"] [] ⟨none, keyOf "" "x", [], []⟩ hfind
  rw [hfind]
  simp only [Except.map]
  exact congrArg Except.ok h

theorem isUnder_nil (q : List Nat) : isUnder [] q := by simp [isUnder]

theorem isUnder_cons_iff (j k : Nat) (p q : List Nat) :
    isUnder (j :: p) (k :: q) ↔ k = j ∧ isUnder p q := by
  simp [isUnder, List.take_succ_cons, List.cons.injEq]

theorem isUnder_cons (j : Nat) {p q : List Nat} (h : isUnder p q) :
    isUnder (j :: p) (j :: q) := (isUnder_cons_iff j j p q).mpr ⟨rfl, h⟩

theorem Cmd.subs_withParsed (c : Cmd) (a : List String) :
    (c.withParsed a).subs = c.subs := by
  cases c
  rfl

theorem Cmd.subs_withParsedSubs (c : Cmd) (a : List String) (s : List Cmd) :
    (c.withParsedSubs a s).subs = s := by
  cases c
  rfl

theorem findCommand_frame (search : String) (args : List String)
    (cmds : List Cmd) (r : FindRes) (h : findCommand search args cmds = .ok r) :
    FrameProp cmds r := by
  have main : ∀ (search : String) (args : List String) (cmds : List Cmd),
      ∀ r, findCommand search args cmds = .ok r → FrameProp cmds r := by
    refine findCommand.induct
      (fun search args cmds => ∀ r, findCommand search args cmds = .ok r →
        FrameProp cmds r)
      (fun key rest cmds => ∀ r, scanCmds key rest cmds = .ok r →
        FrameProp cmds r)
      ?_ ?_ ?_ ?_ ?_ ?_ ?_ ?_ ?_
    · -- findCommand, args = []
      intro search cmds r h
      simp only [findCommand] at h
      injection h with h
      subst h
      refine ⟨fun addr _ => rfl, fun c hc => by simp at hc, fun _ => rfl⟩
    · -- findCommand, args = a0 :: rest
      intro search cmds a0 rest ih r h
      simp only [findCommand] at h
      exact ih r h
    · -- scanCmds, cmds = []
      intro key rest r h
      simp only [scanCmds] at h
      injection h with h
      subst h
      refine ⟨fun addr _ => rfl, fun c hc => by simp at hc, fun _ => rfl⟩
    · -- head matches, flag parse fails
      intro rest c cs hp r h
      simp [scanCmds, hp] at h
    · -- head matches, no subcommands
      intro rest c cs subArgs hp hs r h
      simp only [scanCmds, if_pos rfl, hp, hs, if_true] at h
      injection h with h
      subst h
      refine ⟨?_, ?_, ?_⟩
      · intro addr haddr
        simp only [List.mem_cons, List.not_mem_nil, or_false] at haddr
        cases addr with
        | nil => simp [flagStateAt]
        | cons j p =>
          cases j with
          | zero =>
            cases p with
            | nil => exact absurd rfl haddr
            | cons p0 ps =>
              simp only [flagStateAt, Cmd.subs_withParsed]
          | succ j' => simp [flagStateAt]
      · intro c0 hc0
        simp only [Option.some.injEq] at hc0
        refine ⟨[0], by simp, ?_, ?_⟩
        · intro p hp'
          simp only [List.mem_cons, List.not_mem_nil, or_false] at hp'
          subst hp'
          exact isUnder_cons 0 (isUnder_nil [])
        · simp only [cmdAt]
          exact congrArg some hc0
      · intro hnone
        simp at hnone
    · -- head matches, subcommands, recursion exits with usage error
      intro rest c cs subArgs hp hs e hrec ih r h
      simp [scanCmds, hp, hs, hrec] at h
    · -- head matches, subcommands, recursion returns
      intro rest c cs subArgs hp hs r0 hrec ih r h
      simp only [scanCmds, if_pos rfl, hp, hs, if_false] at h
      rw [hrec] at h
      injection h with h
      subst h
      obtain ⟨F0, S0, N0⟩ := ih r0 hrec
      refine ⟨?_, ?_, ?_⟩
      · intro addr haddr
        simp only [List.mem_cons, not_or] at haddr
        obtain ⟨h1, h2⟩ := haddr
        cases addr with
        | nil => simp [flagStateAt]
        | cons j p =>
          cases j with
          | zero =>
            cases p with
            | nil => exact absurd rfl h1
            | cons p0 ps =>
              have hmem : (p0 :: ps) ∉ r0.trace := by
                intro hm
                exact h2 (List.mem_map_of_mem _ hm)
              have hF := F0 (p0 :: ps) hmem
              simp only [flagStateAt, Cmd.subs_withParsedSubs]
              exact hF
          | succ j' => simp [flagStateAt]
      · intro c0 hc0
        cases hr0 : r0.cmd with
        | some sc =>
          simp only [hr0, Option.some.injEq] at hc0
          obtain ⟨q0, hq0mem, hq0dom, hq0at⟩ := S0 sc hr0
          cases q0 with
          | nil => simp [cmdAt] at hq0at
          | cons q0h q0t =>
            refine ⟨0 :: q0h :: q0t, ?_, ?_, ?_⟩
            · exact List.mem_cons_of_mem _ (List.mem_map_of_mem _ hq0mem)
            · intro p hp'
              rcases List.mem_cons.mp hp' with rfl | hp''
              · exact isUnder_cons 0 (isUnder_nil _)
              · rcases List.mem_map.mp hp'' with ⟨p0, hp0mem, rfl⟩
                exact isUnder_cons 0 (hq0dom p0 hp0mem)
            · simp only [cmdAt, Cmd.subs_withParsedSubs]
              rw [hq0at, hc0]
        | none =>
          simp only [hr0, Option.some.injEq] at hc0
          have htr : r0.trace = [] := N0 hr0
          refine ⟨[0], by simp, ?_, ?_⟩
          · intro p hp'
            simp only [htr, List.map_nil, List.mem_cons, List.not_mem_nil,
              or_false] at hp'
            subst hp'
            exact isUnder_cons 0 (isUnder_nil [])
          · simp only [cmdAt]
            exact congrArg some hc0
      · intro hnone
        cases hr0 : r0.cmd with
        | some sc => simp [hr0] at hnone
        | none => simp [hr0] at hnone
    · -- head does not match, tail scan exits with usage error
      intro key rest c cs hc e herr ih r h
      simp [scanCmds, hc, herr] at h
    · -- head does not match, tail scan returns
      intro key rest c cs hc r0 hok ih r h
      simp only [scanCmds, if_neg hc] at h
      rw [hok] at h
      injection h with h
      subst h
      obtain ⟨F0, S0, N0⟩ := ih r0 hok
      refine ⟨?_, ?_, ?_⟩
      · intro addr haddr
        cases addr with
        | nil => simp [flagStateAt]
        | cons j p =>
          cases j with
          | zero =>
            cases p with
            | nil => simp [flagStateAt]
            | cons p0 ps => simp only [flagStateAt]
          | succ j' =>
            have hmem : (j' :: p) ∉ r0.trace := by
              intro hm
              refine haddr ?_
              have hb : bump (j' :: p) = (j' + 1) :: p := rfl
              exact hb ▸ List.mem_map_of_mem bump hm
            have hF := F0 (j' :: p) hmem
            simp only [flagStateAt]
            exact hF
      · intro c0 hc0
        obtain ⟨q0, hq0mem, hq0dom, hq0at⟩ := S0 c0 hc0
        cases q0 with
        | nil => simp [cmdAt] at hq0at
        | cons q0h q0t =>
          refine ⟨(q0h + 1) :: q0t, ?_, ?_, ?_⟩
          · have hb : bump (q0h :: q0t) = (q0h + 1) :: q0t := rfl
            exact hb ▸ List.mem_map_of_mem bump hq0mem
          · intro p hp'
            rcases List.mem_map.mp hp' with ⟨p0, hp0mem, rfl⟩
            have hd := hq0dom p0 hp0mem
            cases p0 with
            | nil => exact isUnder_nil _
            | cons ph pt =>
              obtain ⟨hkj, hd'⟩ := (isUnder_cons_iff ph q0h pt q0t).mp hd
              subst hkj
              exact isUnder_cons (q0h + 1) hd'
          · simp only [cmdAt]
            exact hq0at
      · intro hnone
        have htr : r0.trace = [] := N0 hnone
        simp [htr]
  exact main search args cmds r h

/-- C10: a successful resolver call mutates only the flag sets of nodes
on the matched path: the flag-set state at every address outside the
parse trace is unchanged, every traced address lies on the path to the
returned node (whose address is the deepest traced one), and a
resolution returning no node traced — hence parsed — nothing.  The
global flag set is not part of the resolver's state at all. -/
theorem C10_only_matched_path_mutated (search : String) (args : List String)
    (cmds : List Cmd) (r : FindRes)
    (h : findCommand search args cmds = .ok r) :
    (∀ addr, addr ∉ r.trace → flagStateAt r.cmds addr = flagStateAt cmds addr) ∧
    (∀ c, r.cmd = some c → ∃ q, q ∈ r.trace ∧ (∀ p ∈ r.trace, isUnder p q) ∧
      cmdAt r.cmds q = some c) ∧
    (r.cmd = none → r.trace = []) :=
  findCommand_frame search args cmds r h

theorem C10_witness :
    flagStateAt
        [Cmd.mk "x" (fun a => some a) (some []) none [],
         Cmd.mk "y" (fun a => some a) none none []] [1] =
      flagStateAt
        [Cmd.mk "x" (fun a => some a) none none [],
         Cmd.mk "y" (fun a => some a) none none []] [1] := by
  have hfind : findCommand "" ["x"]
      [Cmd.mk "x" (fun a => some a) none none [],
       Cmd.mk "y" (fun a => some a) none none []] =
      .ok ⟨some (Cmd.mk "x" (fun a => some a) (some []) none []), "x",
           [Cmd.mk "x" (fun a => some a) (some []) none [],
            Cmd.mk "y" (fun a => some a) none none []], [[0]]⟩ := by
    simp [findCommand, scanCmds, keyOf, Cmd.name, Cmd.parseRes, Cmd.subs,
      Cmd.withParsed]
  have h := (C10_only_matched_path_mutated "" ["x"] _ _ hfind).1 [1] (by simp)
  simpa using h
